import Mathlib

/-!
Verification of `download_wiki_dumps_simple.py` (wiki_graph_extractor).

The Python module is embedded shallowly: each function that the claims
touch is translated into an executable Lean definition over explicit
inputs (directory listings as lists of names, HTTP responses as an
oracle function, byte streams as `List Nat`).  External collaborators
(urllib, the html parser event loop, bz2/gzip codecs, the filesystem)
are modelled at their observable boundary:

* an HTTP fetch is a function from a URL to a `FetchResult`;
* the HTML parser is modelled by the sequence of start-tag events it
  delivers to `DirectoryListingParser.handle_starttag`;
* bz2/gzip streams are modelled by the decompressed byte sequences that
  flow through them: a shard "is" the byte sequence its bz2 content
  decompresses to, and the gzip output file "is" the byte sequence
  written into the compressor (round-tripping of the stdlib codecs is
  assumed, the claims are stated at that level);
* the filesystem state of a reassembly job is the list of temporary
  shard files present, whether the temporary directory exists, and the
  output file's (decompressed) content.

String primitives are re-implemented structurally over `List Char`
(code points), because Lean's built-in `String` comparison functions do
not reduce in the kernel; Python compares strings by code points, which
is exactly what these definitions do.  Where Python's behaviour is
Unicode-aware (`str.strip`, `str.lower`, the regex class `\d`,
`urllib.parse.quote` on non-ASCII), the model fixes the ASCII meaning;
every input appearing in the claims is ASCII.
-/

/-- Python string comparison `a <= b`: lexicographic over code points.
Translates the comparison used by `sorted(...)` / `list.sort()` in the
source (`discover_shard_files` line 238/270, `find_latest_date` line 136). -/
def lexLe : List Char → List Char → Bool
  | [], _ => true
  | _ :: _, [] => false
  | a :: as, b :: bs => if a = b then lexLe as bs else decide (a < b)

/-- `a <= b` on strings, as Python orders them. -/
def pyLe (a b : String) : Prop := lexLe a.data b.data = true

instance : DecidableRel pyLe := fun a b => by unfold pyLe; infer_instance

/-- Python `s.endswith(suf)`. -/
def strEndsWith (s suf : String) : Bool := suf.data.isSuffixOf s.data

/-- Python `s.startswith(p)`. -/
def strStartsWith (s p : String) : Bool := p.data.isPrefixOf s.data

/-- Python `pat in s` (substring containment). -/
def containsSeq (pat : List Char) : List Char → Bool
  | [] => pat.isEmpty
  | c :: rest => pat.isPrefixOf (c :: rest) || containsSeq pat rest

/-- Python `s.replace(pat, rep)` for a non-empty `pat`: replace all
non-overlapping occurrences, scanning left to right. -/
def replaceSeq (pat rep : List Char) (s : List Char) : List Char :=
  match s with
  | [] => []
  | c :: rest =>
    if pat ≠ [] ∧ pat.isPrefixOf (c :: rest) then
      rep ++ replaceSeq pat rep ((c :: rest).drop pat.length)
    else c :: replaceSeq pat rep rest
termination_by s.length
decreasing_by
  · simp only [List.length_drop, List.length_cons]
    have hpat : pat.length ≠ 0 := by
      intro h0
      exact (by assumption : pat ≠ [] ∧ _).1 (List.eq_nil_of_length_eq_zero h0)
    omega
  · simp

/-- Python `s.replace(pat, rep)` lifted to `String`. -/
def strReplace (s pat rep : String) : String :=
  String.mk (replaceSeq pat.data rep.data s.data)

/-- Python `s.rstrip('/')`: remove all trailing `'/'` characters
(source line 109, `attr_value.rstrip('/')`). -/
def rstripSlashes (s : String) : String :=
  String.mk (s.data.reverse.dropWhile (fun c => c = '/')).reverse

/-- ASCII lower-casing of one character (model of Python `str.lower`;
all inputs relevant to the claims are ASCII). -/
def asciiLower (c : Char) : Char :=
  if 'A' ≤ c ∧ c ≤ 'Z' then Char.ofNat (c.toNat + 32) else c

/-- Python `s.strip().lower()` as applied to the confirmation prompt
answer in `cleanup_old_dumps` (line 163); whitespace is the ASCII set. -/
def pyStripLower (s : String) : String :=
  String.mk
    ((((s.data.dropWhile Char.isWhitespace).reverse.dropWhile
        Char.isWhitespace).reverse).map asciiLower)

/-- `response.strip().lower() in ['yes', 'y']` (source line 164). -/
def isYesAnswer (s : String) : Bool :=
  pyStripLower s = "yes" || pyStripLower s = "y"

/-- Python `re.match(r'^\d{8}$', s)` (source line 129): eight ASCII
digits, optionally followed by one final newline (`$` also matches just
before a trailing newline in Python). -/
def matchEightDigits (cs : List Char) : Bool :=
  (cs.length = 8 && cs.all Char.isDigit)
    || (cs.length = 9 && (cs.take 8).all Char.isDigit && cs.getLast? = some '\n')

/-- The date filter applied to directory names in `find_latest_date`. -/
def matchesDatePattern (s : String) : Bool := matchEightDigits s.data

/-- Characters `urllib.parse.quote` never encodes (letters, digits,
`_.-~`). -/
def isUnreservedChar (c : Char) : Bool :=
  c.isAlpha || c.isDigit || c = '_' || c = '.' || c = '-' || c = '~'

/-- Upper-case hexadecimal digit for `0 ≤ n < 16`. -/
def hexDigitChar (n : Nat) : Char :=
  if n < 10 then Char.ofNat (48 + n) else Char.ofNat (55 + n)

/-- Percent-encoding of one ASCII character. -/
def percentEncodeChar (c : Char) : List Char :=
  ['%', hexDigitChar (c.toNat / 16), hexDigitChar (c.toNat % 16)]

/-- Python `urllib.parse.quote(s, safe)` restricted to ASCII input
(one byte per character; source line 261 uses `quote(subdir, safe='/')`). -/
def pyQuote (safe : List Char) (s : String) : String :=
  String.mk ((s.data.map (fun c =>
    if isUnreservedChar c || safe.contains c then [c]
    else percentEncodeChar c)).flatten)

/-- Shell-style glob matching for patterns built from literal characters
and `*` (the only metacharacter occurring in the source's pattern,
line 150); `*` matches any sequence of characters.  This is how
`pathlib.Path.glob` matches a one-component pattern against a filename. -/
def globMatch : List Char → List Char → Bool
  | [], s => s.isEmpty
  | '*' :: ps, s => (List.range (s.length + 1)).any (fun k => globMatch ps (s.drop k))
  | p :: ps, [] => false && (p :: ps).isEmpty
  | p :: ps, c :: s => p = c && globMatch ps s

/-- The cleanup glob pattern `*wiki-*-cirrussearch-content.json.gz`
(source line 150). -/
def dumpPattern : List Char := "*wiki-*-cirrussearch-content.json.gz".data

/-- Whether a filename is selected by `output_dir.glob(pattern)` in
`cleanup_old_dumps`. -/
def matchesDumpPattern (name : String) : Bool := globMatch dumpPattern name.data

/-! ## DirectoryListingParser (source lines 93-114) -/

/-- The state accumulated by `DirectoryListingParser`: the `files` and
`directories` lists, in insertion order. -/
structure DirectoryListingParser where
  files : List String
  directories : List String
deriving DecidableEq

/-- The body of the `href` branch of `handle_starttag` (lines 106-114),
applied to one non-empty href value. -/
def processHref (p : DirectoryListingParser) (v : String) : DirectoryListingParser :=
  if v = "../" ∨ v = "./" then p
  else if strEndsWith v "/" then
    let dn := rstripSlashes v
    if dn = "" then p
    else { p with directories := p.directories ++ [dn] }
  else { p with files := p.files ++ [v] }

/-- One iteration of the attribute loop in `handle_starttag`
(lines 103-104): only attributes named `href` with a truthy (present,
non-empty) value are considered. -/
def handleAttr (p : DirectoryListingParser) (attr : String × Option String) :
    DirectoryListingParser :=
  match attr.2 with
  | none => p
  | some v => if attr.1 = "href" ∧ v ≠ "" then processHref p v else p

/-- `DirectoryListingParser.handle_starttag` (lines 101-114). -/
def handle_starttag (p : DirectoryListingParser) (tag : String)
    (attrs : List (String × Option String)) : DirectoryListingParser :=
  if tag = "a" then attrs.foldl handleAttr p else p

/-- Feeding a document to the parser, modelled by the sequence of
start-tag events the html parser delivers. -/
def feedTags (events : List (String × List (String × Option String))) :
    DirectoryListingParser :=
  events.foldl (fun p e => handle_starttag p e.1 e.2) ⟨[], []⟩

/-- The filter a kept file target satisfies, following the spec's words:
non-empty, not a current/parent marker, not ending in the separator. -/
def keptFileTarget (v : String) : Bool :=
  v ≠ "" && v ≠ "../" && v ≠ "./" && !(strEndsWith v "/")

/-- The filter a kept directory target satisfies: non-empty, not a
marker, ends in the separator, and stripping trailing separators leaves
a non-empty name (the last condition is what the code adds on top of
the spec sentence). -/
def keptDirTarget (v : String) : Bool :=
  v ≠ "" && v ≠ "../" && v ≠ "./" && strEndsWith v "/" && rstripSlashes v ≠ ""

/-- Modelled from the spec: the partition rule of section 4.1/8 — every
non-empty, non-marker target goes to `files` or (stripped) to
`directories`.  Used to compare the code's parser against the spec's
words. -/
def specPartitionFiles (targets : List String) : List String :=
  targets.filter keptFileTarget

/-- Modelled from the spec: the directory half of the partition rule. -/
def specPartitionDirs (targets : List String) : List String :=
  (targets.filter keptDirTarget).map rstripSlashes

/-! ## find_latest_date (source lines 117-145)

The function is modelled on the directory names extracted from the
listing (the fetch/parse plumbing feeds `parser.directories` into the
filter); it returns `none` where the code raises `ValueError`. -/

/-- `find_latest_date`, lines 128-140: filter the parsed directory names
with `^\d{8}$`, sort as plain strings, return the last element.
`List.insertionSort` is a stable ascending sort, hence extensionally the
sort Python performs. -/
def find_latest_date (directories : List String) : Option String :=
  let dates := directories.filter matchesDatePattern
  if dates.isEmpty then none
  else (List.insertionSort pyLe dates).getLast?

/-! ## Shard locator (source lines 180-312) -/

/-- `index_name={lang}wiki_content`, lines 217-220 (note the code
special-cases the literal `'simple'` into the same shape). -/
def subdirName (lang : String) : String :=
  if lang = "simple" then "index_name=simplewiki_content"
  else "index_name=" ++ lang ++ "wiki_content"

/-- Output artifact name, `main` lines 452-455. -/
def outputFilename (lang date : String) : String :=
  if lang = "simple" then "simplewiki-" ++ date ++ "-cirrussearch-content.json.gz"
  else lang ++ "wiki-" ++ date ++ "-cirrussearch-content.json.gz"

/-- Line 238 / line 270: `sorted([f for f in parser.files if
f.endswith('.json.bz2')])`. -/
def filterSortShards (files : List String) : List String :=
  List.insertionSort pyLe (files.filter (fun f => strEndsWith f ".json.bz2"))

/-- Outcome of one `urllib.request.urlopen` + decode + parse of a
directory listing URL.  `ok` carries what `DirectoryListingParser`
extracts from the page (`files`, `directories`) together with the
index-name hrefs a raw regex scan of the page text would find (the
third fallback of `list_available_indexes`, lines 203-207, operates on
the raw HTML, which the oracle abstracts).  `httpError` is an
`urllib.error.HTTPError` with the given status; `failed` is any other
exception (connection error, decode error). -/
inductive FetchResult where
  | ok (files directories rawIndexRefs : List String)
  | httpError (code : Nat)
  | failed
deriving DecidableEq

/-- The error surfaced by `discover_shard_files`, by originating branch:
`noShards` is the zero-shards `ValueError` of line 250 (subsequently
re-wrapped by the outer handler of line 311); `notFoundBoth` is the 404
recovery error of line 308; `httpOther` is the non-404 error of
line 310; `wrappedFailure` is the outer wrap of line 312 for a non-HTTP
exception.  Each diagnostic-carrying branch records the sibling index
names listed for the message. -/
inductive DiscoverError where
  | noShards (availableIndexes : List String)
  | notFoundBoth (availableIndexes : List String)
  | httpOther (code : Nat)
  | wrappedFailure
deriving DecidableEq

/-- `list_available_indexes` (lines 180-211): three fallback strategies
for listing `index_name=` sibling directories.  Returns the indexes and
the URLs fetched.  Python materialises tiers 2 and 3 through `set`,
whose iteration order is unspecified; the model fixes first-occurrence
order (`List.dedup` keeps one representative per element) — no claim
depends on that order. -/
def list_available_indexes (fetch : String → FetchResult) (base_url : String) :
    List String × List String :=
  match fetch base_url with
  | .ok files dirs raw =>
    let idx1 := dirs.filter (fun d => strStartsWith d "index_name=")
    let idx2 :=
      if idx1.isEmpty then
        let allItems := files ++ dirs
        let cand := allItems.filter (fun x => containsSeq "index_name=".data x.data)
        let stripped := cand.map (fun x => strReplace x ".json.bz2" "")
        (stripped.filter (fun x => strStartsWith x "index_name=")).dedup
      else idx1
    let idx3 :=
      if idx2.isEmpty then (raw.filter (fun m => strStartsWith m "index_name=")).dedup
      else idx2
    (idx3, [base_url])
  | _ => ([], [base_url])

/-- `discover_shard_files` (lines 214-312), over a fetch oracle.
Returns the result (shard URLs or the raised error) paired with the
trace of URLs fetched, in order.  Control flow mirrors the source: an
unencoded attempt; on HTTP 404 one retry with the subdirectory
percent-encoded (`quote(subdir, safe='/')`); any exception of the
encoded attempt is swallowed (`except: pass`, line 276) and the 404
recovery diagnostic is produced; a non-404 `HTTPError` raises
immediately (line 310). -/
def discover_shard_files (fetch : String → FetchResult)
    (base_url lang : String) :
    Except DiscoverError (List String) × List String :=
  let subdir := subdirName lang
  let dir_url := base_url ++ subdir ++ "/"
  match fetch dir_url with
  | .ok files _ _ =>
    let shard_files := filterSortShards files
    if shard_files.isEmpty then
      let li := list_available_indexes fetch base_url
      (.error (.noShards li.1), dir_url :: li.2)
    else
      (.ok (shard_files.map (fun f => base_url ++ subdir ++ "/" ++ f)), [dir_url])
  | .httpError code =>
    if code = 404 then
      let encoded_subdir := pyQuote ['/'] subdir
      let encoded_dir_url := base_url ++ encoded_subdir ++ "/"
      match fetch encoded_dir_url with
      | .ok files _ _ =>
        let shard_files := filterSortShards files
        if shard_files.isEmpty then
          let li := list_available_indexes fetch base_url
          (.error (.notFoundBoth li.1), dir_url :: encoded_dir_url :: li.2)
        else
          (.ok (shard_files.map (fun f => base_url ++ encoded_subdir ++ "/" ++ f)),
            [dir_url, encoded_dir_url])
      | _ =>
        let li := list_available_indexes fetch base_url
        (.error (.notFoundBoth li.1), dir_url :: encoded_dir_url :: li.2)
    else
      (.error (.httpOther code), [dir_url])
  | .failed => (.error .wrappedFailure, [dir_url])

/-! ## Shard reassembler (source lines 315-372)

`download_and_concatenate_shards` is modelled over the observable
behaviour of each shard: whether its download succeeds (`download_dump`,
lines 61-90, returns `False` on any exception, in which case no shard
file has been written — e.g. the initial HEAD request fails), and, for
a downloaded shard, the byte sequence the bz2 stream yields — either
the full decompressed content, or a proper failure after yielding some
bytes (a corrupt stream / read error).  The gzip output file is
identified with the byte sequence written into the compressor. -/

/-- Observable fate of one shard during a reassembly run. -/
inductive ShardFate where
  | dlFail
  | streamFail (yielded : List Nat)
  | ok (content : List Nat)
deriving DecidableEq

/-- Whether a fate is a fully successful one. -/
def isOkFate : ShardFate → Bool
  | .ok _ => true
  | _ => false

/-- One shard passed to the reassembler: its remote basename and fate. -/
structure Shard where
  name : String
  fate : ShardFate
deriving DecidableEq

/-- The decompressed content of a fully successful shard (and `[]` for
the other fates, which never reach a full read). -/
def shardContent (s : Shard) : List Nat :=
  match s.fate with
  | .ok c => c
  | _ => []

/-- `1024 * 1024`: the fixed read size of line 345. -/
def chunkSize : Nat := 1024 * 1024

/-- The `while True` read/write loop of lines 344-349 over one bz2
stream: read up to `chunkSize` bytes, stop on an empty read, otherwise
write the chunk to the compressor and add its length to the running
total. -/
def readLoop (content out : List Nat) (total : Nat) : List Nat × Nat :=
  if h : (content.take chunkSize).isEmpty then (out, total)
  else readLoop (content.drop chunkSize) (out ++ content.take chunkSize)
    (total + (content.take chunkSize).length)
termination_by content.length
decreasing_by
  simp only [List.length_drop]
  have h2 : content ≠ [] := by
    intro hc; subst hc; simp at h
  have h3 : 0 < content.length := List.length_pos.mpr h2
  have h4 : 0 < chunkSize := by decide
  omega

/-- The download loop of lines 324-333: shards are fetched sequentially
in list order into the temporary directory; the first failure raises,
carrying the names downloaded so far (`downloaded_shards`); on success
all names are returned. -/
def downloadLoop : List Shard → Except (List String) (List String)
  | [] => .ok []
  | s :: rest =>
    match s.fate with
    | .dlFail => .error []
    | _ =>
      match downloadLoop rest with
      | .ok names => .ok (s.name :: names)
      | .error names => .error (s.name :: names)

/-- Result of the streaming phase: bytes written into the gzip stream,
the running `total_size`, and whether the phase completed. -/
structure StreamOutcome where
  written : List Nat
  total : Nat
  streamOk : Bool
deriving DecidableEq

/-- The concatenation loop of lines 339-349: each downloaded shard is
streamed through `readLoop` into the single compressor stream, in list
order; a stream failure raises out of the loop.  (The `dlFail` arm is
unreachable: the loop only runs after every download succeeded.) -/
def streamLoop : List Shard → List Nat → Nat → StreamOutcome
  | [], w, t => ⟨w, t, true⟩
  | s :: rest, w, t =>
    match s.fate with
    | .ok c =>
      let p := readLoop c w t
      streamLoop rest p.1 p.2
    | .streamFail y =>
      let p := readLoop y w t
      ⟨p.1, p.2, false⟩
    | .dlFail => ⟨w, t, false⟩

/-- `shard_path.unlink()` over a list of paths: each removal deletes
one occurrence from the set of present files (the error-path loop of
lines 365-367 guards with `exists()`, so removing an absent file is a
no-op). -/
def unlinkAll (present toRemove : List String) : List String :=
  toRemove.foldl (fun acc p => acc.erase p) present

/-- The caller-observable outcome of `download_and_concatenate_shards`:
the returned boolean, the temporary shard files still present, whether
the temporary directory still exists, the output file state (`none` =
never touched, i.e. whatever existed before; `some w` = exists and its
gzip content decompresses to `w`), and the accumulated `total_size`
(meaningful only once the streaming phase has started). -/
structure ReassemblyOutcome where
  retVal : Bool
  tempFiles : List String
  tempDirExists : Bool
  outputFile : Option (List Nat)
  total : Nat
deriving DecidableEq

/-- `download_and_concatenate_shards` (lines 315-372).

* `rmdirFails` abstracts whether `temp_dir.rmdir()` raises (e.g. a
  foreign file in the directory); on the success path that call
  (line 357) is unprotected, so its failure falls into the `except`
  handler, whose own `rmdir` retry failure is swallowed (lines 368-371).
* `initOut` is the output file state before the call (see
  `ReassemblyOutcome.outputFile`); `gzip.open(output_path, 'wb')`
  truncates it to `some []` before any write, and no path of the
  function ever deletes the output file.
* On a download failure the `except` branch unlinks exactly
  `downloaded_shards` (the successfully downloaded prefix) and attempts
  to remove the directory; on a streaming failure `downloaded_shards`
  holds every shard. -/
def download_and_concatenate_shards (shards : List Shard) (rmdirFails : Bool)
    (initOut : Option (List Nat)) : ReassemblyOutcome :=
  match downloadLoop shards with
  | .error downloaded =>
    { retVal := false
      tempFiles := unlinkAll downloaded downloaded
      tempDirExists := rmdirFails
      outputFile := initOut
      total := 0 }
  | .ok downloaded =>
    let r := streamLoop shards [] 0
    if r.streamOk then
      if rmdirFails then
        { retVal := false
          tempFiles := unlinkAll (unlinkAll downloaded downloaded) downloaded
          tempDirExists := true
          outputFile := some r.written
          total := r.total }
      else
        { retVal := true
          tempFiles := unlinkAll downloaded downloaded
          tempDirExists := false
          outputFile := some r.written
          total := r.total }
    else
      { retVal := false
        tempFiles := unlinkAll downloaded downloaded
        tempDirExists := rmdirFails
        outputFile := some r.written
        total := r.total }

/-! ## cleanup_old_dumps (source lines 148-177) and the cleanup step of
`main` (lines 431-436). -/

/-- The caller-observable outcome of `cleanup_old_dumps`: the returned
boolean, the filenames unlinked, and whether the interactive prompt was
shown. -/
structure CleanupOutcome where
  retVal : Bool
  deleted : List String
  prompted : Bool
deriving DecidableEq

/-- `cleanup_old_dumps(output_dir, confirm)` over the directory's
filenames and the user's prompt answer.  The deletions themselves are
modelled as succeeding (an `unlink` exception makes the code return
`False` after deleting a prefix; no claim depends on that path). -/
def cleanup_old_dumps (files : List String) (confirm : Bool)
    (userAnswer : String) : CleanupOutcome :=
  let dump_files := files.filter matchesDumpPattern
  if dump_files.isEmpty then ⟨true, [], false⟩
  else if confirm then
    if isYesAnswer userAnswer then ⟨true, dump_files, true⟩
    else ⟨false, [], true⟩
  else ⟨true, dump_files, false⟩

/-- The `--clean` step of `main` (lines 431-436): with the flag set,
a falsy return from `cleanup_old_dumps` (confirmation declined or a
deletion error) causes `sys.exit(1)`; `confirm` is `not args.yes`.
`some c` models `sys.exit(c)`, `none` means execution continues. -/
def mainCleanupExit (cleanFlag yesFlag : Bool) (files : List String)
    (userAnswer : String) : Option Nat :=
  if cleanFlag then
    if (cleanup_old_dumps files (!yesFlag) userAnswer).retVal then none
    else some 1
  else none

/-! ## Helper lemmas -/

theorem lexLe_refl : ∀ as : List Char, lexLe as as = true
  | [] => rfl
  | _ :: as => by simp [lexLe, lexLe_refl as]

theorem lexLe_trans : ∀ as bs cs, lexLe as bs = true → lexLe bs cs = true →
    lexLe as cs = true
  | [], _, _, _, _ => rfl
  | _ :: _, [], _, h1, _ => by simp [lexLe] at h1
  | _ :: _, _ :: _, [], _, h2 => by simp [lexLe] at h2
  | a :: as, b :: bs, c :: cs, h1, h2 => by
    simp only [lexLe] at h1 h2 ⊢
    by_cases hab : a = b
    · subst hab
      by_cases hac : a = c
      · subst hac
        simp only [if_pos rfl] at h1 h2 ⊢
        exact lexLe_trans as bs cs h1 h2
      · simpa [hac] using h2
    · by_cases hbc : b = c
      · subst hbc; simpa [hab] using h1
      · simp only [if_neg hab] at h1
        simp only [if_neg hbc] at h2
        have hac : a < c := lt_trans (of_decide_eq_true h1) (of_decide_eq_true h2)
        simp [ne_of_lt hac, hac]

theorem lexLe_total : ∀ as bs, lexLe as bs = true ∨ lexLe bs as = true
  | [], _ => .inl rfl
  | _ :: _, [] => .inr rfl
  | a :: as, b :: bs => by
    by_cases hab : a = b
    · subst hab
      rcases lexLe_total as bs with h | h
      · exact .inl (by simpa [lexLe] using h)
      · exact .inr (by simpa [lexLe] using h)
    · rcases lt_or_gt_of_ne hab with h | h
      · exact .inl (by simp [lexLe, hab, h])
      · exact .inr (by simp [lexLe, Ne.symm hab, h])

instance : IsTrans String pyLe :=
  ⟨fun a b c => lexLe_trans a.data b.data c.data⟩

instance : IsTotal String pyLe :=
  ⟨fun a b => lexLe_total a.data b.data⟩

/-- `lexLe` is exactly "equal or lexicographically smaller" for the
canonical lexicographic strict order on character sequences. -/
theorem lexLe_iff_lex : ∀ as bs,
    lexLe as bs = true ↔ as = bs ∨ List.Lex (· < ·) as bs
  | [], [] => by simp [lexLe]
  | [], _ :: _ => by simp [lexLe, List.Lex.nil]
  | _ :: _, [] => by
    constructor
    · intro h; simp [lexLe] at h
    · rintro (h | h)
      · exact absurd h (by simp)
      · cases h
  | a :: as, b :: bs => by
    by_cases hab : a = b
    · subst hab
      rw [show lexLe (a :: as) (a :: bs) = lexLe as bs by simp [lexLe]]
      rw [lexLe_iff_lex as bs]
      constructor
      · rintro (rfl | h)
        · exact .inl rfl
        · exact .inr (List.Lex.cons h)
      · rintro (h | h)
        · exact .inl (by injection h)
        · cases h with
          | cons h => exact .inr h
          | rel h => exact absurd h (lt_irrefl a)
    · rw [show lexLe (a :: as) (b :: bs) = decide (a < b) by simp [lexLe, hab]]
      constructor
      · intro h
        exact .inr (List.Lex.rel (of_decide_eq_true h))
      · rintro (h | h)
        · exact absurd (by injection h) hab
        · cases h with
          | cons h => exact absurd rfl hab
          | rel h => exact decide_eq_true h

theorem mem_of_getLast?_eq {α : Type} : ∀ {l : List α} {m : α},
    l.getLast? = some m → m ∈ l
  | [], _, h => by simp at h
  | [a], m, h => by
    simp only [List.getLast?_singleton, Option.some.injEq] at h
    simp [h]
  | _ :: b :: t, m, h => by
    rw [List.getLast?_cons_cons] at h
    exact List.mem_cons_of_mem _ (mem_of_getLast?_eq h)

/-- In a `≤`-sorted list the last element is an upper bound. -/
theorem sorted_getLast?_ub {α : Type} {r : α → α → Prop} :
    ∀ {l : List α}, l.Sorted r → ∀ {m : α}, l.getLast? = some m →
      ∀ x ∈ l, x = m ∨ r x m
  | [], _, _, h => by simp at h
  | [a], _, m, h => by
    intro x hx
    simp only [List.getLast?_singleton, Option.some.injEq] at h
    simp only [List.mem_singleton] at hx
    exact .inl (hx.trans h)
  | a :: b :: t, hs, m, h => by
    intro x hx
    rw [List.getLast?_cons_cons] at h
    rcases List.mem_cons.mp hx with rfl | hx'
    · exact .inr ((List.sorted_cons.mp hs).1 m (mem_of_getLast?_eq h))
    · exact sorted_getLast?_ub (List.sorted_cons.mp hs).2 h x hx'

theorem unlinkAll_self : ∀ l : List String, unlinkAll l l = []
  | [] => rfl
  | a :: t => by
    show List.foldl _ ((a :: t).erase a) t = []
    rw [List.erase_cons_head]
    exact unlinkAll_self t

theorem unlinkAll_nil_left : ∀ l : List String, unlinkAll [] l = []
  | [] => rfl
  | a :: t => by
    show List.foldl _ (List.nil.erase a) t = []
    rw [List.erase_nil]
    exact unlinkAll_nil_left t

theorem readLoop_eq (content out : List Nat) (total : Nat) :
    readLoop content out total = (out ++ content, total + content.length) := by
  rw [readLoop]
  split
  · rename_i h
    have hc : content = [] := by
      rcases content with _ | ⟨c, cs⟩
      · rfl
      · simp [chunkSize] at h
    subst hc; simp
  · rename_i h
    rw [readLoop_eq (content.drop chunkSize) (out ++ content.take chunkSize)
      (total + (content.take chunkSize).length)]
    have hlen : (content.take chunkSize).length + (content.drop chunkSize).length
        = content.length := by
      rw [← List.length_append, List.take_append_drop]
    refine Prod.ext ?_ ?_
    · simp [List.append_assoc, List.take_append_drop]
    · simp only
      omega
termination_by content.length
decreasing_by
  simp only [List.length_drop]
  have h2 : content ≠ [] := by
    intro hc; subst hc; simp_all
  have h3 : 0 < content.length := List.length_pos.mpr h2
  have h4 : 0 < chunkSize := by decide
  omega

theorem downloadLoop_ok_of_noDlFail : ∀ {shards : List Shard},
    (∀ s ∈ shards, s.fate ≠ ShardFate.dlFail) →
    downloadLoop shards = .ok (shards.map Shard.name)
  | [], _ => rfl
  | s :: rest, h => by
    have hs : s.fate ≠ ShardFate.dlFail := h s (List.mem_cons_self s rest)
    have hrest := downloadLoop_ok_of_noDlFail
      (fun x hx => h x (List.mem_cons_of_mem s hx))
    cases hf : s.fate with
    | dlFail => exact absurd hf hs
    | streamFail y => simp [downloadLoop, hf, hrest]
    | ok c => simp [downloadLoop, hf, hrest]

theorem noDlFail_of_downloadLoop_ok : ∀ {shards : List Shard} {names : List String},
    downloadLoop shards = .ok names → ∀ s ∈ shards, s.fate ≠ ShardFate.dlFail
  | [], _, _ => by simp
  | s :: rest, names, h => by
    intro x hx
    rcases List.mem_cons.mp hx with rfl | hx'
    · intro hf
      simp [downloadLoop, hf] at h
    · cases hd : downloadLoop rest with
      | error ns =>
        exfalso
        cases hsf : s.fate <;> simp [downloadLoop, hsf, hd] at h
      | ok ns => exact noDlFail_of_downloadLoop_ok hd x hx'

theorem streamOk_eq_all : ∀ (shards : List Shard) (w : List Nat) (t : Nat),
    (streamLoop shards w t).streamOk = shards.all (fun s => isOkFate s.fate)
  | [], _, _ => rfl
  | s :: rest, w, t => by
    cases hf : s.fate with
    | dlFail => simp [streamLoop, hf, isOkFate, List.all_cons]
    | streamFail y => simp [streamLoop, hf, isOkFate, List.all_cons]
    | ok c =>
      simp only [streamLoop, hf, List.all_cons, isOkFate, Bool.true_and]
      exact streamOk_eq_all rest _ _

theorem streamLoop_eq_of_all : ∀ (shards : List Shard) (w : List Nat) (t : Nat),
    shards.all (fun s => isOkFate s.fate) = true →
    streamLoop shards w t =
      ⟨w ++ (shards.map shardContent).flatten,
        t + (shards.map (fun s => (shardContent s).length)).sum, true⟩
  | [], w, t, _ => by simp [streamLoop]
  | s :: rest, w, t, h => by
    rw [List.all_cons] at h
    obtain ⟨h1, h2⟩ := Bool.and_eq_true_iff.mp h
    cases hf : s.fate with
    | dlFail => rw [hf] at h1; simp [isOkFate] at h1
    | streamFail y => rw [hf] at h1; simp [isOkFate] at h1
    | ok c =>
      simp only [streamLoop, hf, readLoop_eq]
      rw [streamLoop_eq_of_all rest _ _ h2]
      simp [shardContent, hf, List.append_assoc, Nat.add_assoc]

theorem head_dropWhile_not {α : Type} (p : α → Bool) : ∀ (l : List α) {c : α},
    (l.dropWhile p).head? = some c → p c = false
  | [], c, h => by simp [List.dropWhile] at h
  | a :: t, c, h => by
    by_cases hp : p a
    · rw [List.dropWhile_cons, if_pos hp] at h
      exact head_dropWhile_not p t h
    · rw [List.dropWhile_cons, if_neg hp] at h
      simp only [List.head?_cons, Option.some.injEq] at h
      subst h
      exact Bool.eq_false_iff.mpr hp

/-- The name stored by the directory branch of the parser never ends in
the separator (`rstrip('/')` has removed every trailing one). -/
theorem rstripSlashes_no_trailing (v : String) :
    strEndsWith (rstripSlashes v) "/" = false := by
  show List.isSuffixOf _ _ = false
  rw [List.isSuffixOf]
  show (['/'].reverse).isPrefixOf (v.data.reverse.dropWhile (fun c => c = '/')).reverse.reverse = false
  rw [List.reverse_reverse]
  cases hd : (v.data.reverse.dropWhile (fun c => c = '/')) with
  | nil => rfl
  | cons c cs =>
    have hc : (decide (c = '/') : Bool) = false := by
      have := head_dropWhile_not (fun c => decide (c = '/')) v.data.reverse
        (c := c) (by rw [hd]; rfl)
      simpa using this
    simp only [List.reverse_cons]
    show List.isPrefixOf ['/'] (c :: cs) = false
    simp only [List.isPrefixOf, List.isPrefixOf_nil_left, Bool.and_true]
    have hcne : c ≠ '/' := by simpa using hc
    have : ('/' == c) = false := beq_eq_false_iff_ne.mpr (Ne.symm hcne)
    simp [this]

/-- `keptFileTarget` and `keptDirTarget` never both hold. -/
theorem kept_exclusive (v : String) :
    ¬(keptFileTarget v = true ∧ keptDirTarget v = true) := by
  rintro ⟨h1, h2⟩
  simp only [keptFileTarget, Bool.and_eq_true, Bool.not_eq_eq_eq_not, Bool.not_true] at h1
  simp only [keptDirTarget, Bool.and_eq_true] at h2
  rw [h1.2] at h2
  simp at h2

/-- One `handle_starttag` event for a well-formed anchor carrying one
href target, summarised by the two kept-target filters. -/
theorem step_target_eq (p : DirectoryListingParser) (v : String) :
    handle_starttag p "a" [("href", some v)]
      = if keptFileTarget v then { p with files := p.files ++ [v] }
        else if keptDirTarget v then
          { p with directories := p.directories ++ [rstripSlashes v] }
        else p := by
  show handleAttr p ("href", some v)
      = if keptFileTarget v then { p with files := p.files ++ [v] }
        else if keptDirTarget v then
          { p with directories := p.directories ++ [rstripSlashes v] }
        else p
  by_cases hv : v = ""
  · subst hv
    simp [handleAttr, keptFileTarget, keptDirTarget]
  · by_cases hm : v = "../" ∨ v = "./"
    · have h1 : (v = "../" ∨ v = "./") := hm
      rcases h1 with rfl | rfl <;>
        simp [handleAttr, processHref, keptFileTarget, keptDirTarget, strEndsWith,
          List.isSuffixOf]
    · push_neg at hm
      by_cases he : strEndsWith v "/"
      · by_cases hdn : rstripSlashes v = ""
        · simp [handleAttr, processHref, hv, hm.1, hm.2, he, hdn,
            keptFileTarget, keptDirTarget]
        · simp [handleAttr, processHref, hv, hm.1, hm.2, he, hdn,
            keptFileTarget, keptDirTarget]
      · simp [handleAttr, processHref, hv, hm.1, hm.2, he,
          keptFileTarget, keptDirTarget]

/-- Folding single-href anchors from any starting state appends exactly
the spec partition to each collection. -/
theorem feedTargets_partition : ∀ (targets : List String) (p : DirectoryListingParser),
    (targets.foldl (fun q v => handle_starttag q "a" [("href", some v)]) p).files
        = p.files ++ specPartitionFiles targets ∧
    (targets.foldl (fun q v => handle_starttag q "a" [("href", some v)]) p).directories
        = p.directories ++ specPartitionDirs targets
  | [], p => by simp [specPartitionFiles, specPartitionDirs]
  | v :: rest, p => by
    rw [List.foldl_cons, step_target_eq]
    by_cases hf : keptFileTarget v
    · have hd : keptDirTarget v = false := by
        rcases hkd : keptDirTarget v
        · rfl
        · exact absurd ⟨hf, hkd⟩ (kept_exclusive v)
      rw [if_pos hf]
      have ih := feedTargets_partition rest { p with files := p.files ++ [v] }
      refine ⟨ih.1.trans ?_, ih.2.trans ?_⟩
      · simp [specPartitionFiles, List.filter_cons, hf]
      · simp [specPartitionDirs, List.filter_cons, hd]
    · by_cases hdd : keptDirTarget v
      · rw [if_neg hf, if_pos hdd]
        have ih := feedTargets_partition rest
          { p with directories := p.directories ++ [rstripSlashes v] }
        refine ⟨ih.1.trans ?_, ih.2.trans ?_⟩
        · simp [specPartitionFiles, List.filter_cons, hf]
        · simp [specPartitionDirs, List.filter_cons, hdd]
      · rw [if_neg hf, if_neg hdd]
        have ih := feedTargets_partition rest p
        refine ⟨ih.1.trans ?_, ih.2.trans ?_⟩
        · simp [specPartitionFiles, List.filter_cons, hf]
        · simp [specPartitionDirs, List.filter_cons, hdd]

/-- Full characterisation of a successful reassembly run (every shard
downloads and streams completely, and the final `rmdir` succeeds). -/
theorem reassemble_success_run (shards : List Shard) (initOut : Option (List Nat))
    (h : shards.all (fun s => isOkFate s.fate) = true) :
    download_and_concatenate_shards shards false initOut =
      { retVal := true
        tempFiles := []
        tempDirExists := false
        outputFile := some ((shards.map shardContent).flatten)
        total := (shards.map (fun s => (shardContent s).length)).sum } := by
  have hnd : ∀ s ∈ shards, s.fate ≠ ShardFate.dlFail := by
    intro s hs hf
    have hall := List.all_eq_true.mp h s hs
    rw [hf] at hall
    simp [isOkFate] at hall
  rw [download_and_concatenate_shards, downloadLoop_ok_of_noDlFail hnd]
  rw [streamLoop_eq_of_all shards [] 0 h]
  simp [unlinkAll_self]

/-! ## Claim theorems -/

/-- Claim C1, counterexample to the zero-shard half: called with an
empty shard list, `download_and_concatenate_shards` returns `True` and
produces an output file whose gzip content decompresses to the empty
byte sequence — an empty success, not an error. -/
theorem wiki_C1_counterexample :
    (download_and_concatenate_shards [] false none).retVal = true ∧
    (download_and_concatenate_shards [] false none).outputFile = some [] := by
  decide

/-- Claim C1 (amended): for every sequence of shards whose bz2 contents
decompress to byte sequences b1..bN, a successful reassembly run writes
exactly the concatenation b1 ++ ... ++ bN, in listed order, into the
gzip output — for any N, including N = 0, where the run is an empty
success (the zero-shard error belongs to `discover_shard_files`, which
raises when no shard files are found, not to the reassembler). -/
theorem wiki_C1_success_concatenation (shards : List Shard)
    (initOut : Option (List Nat))
    (h : shards.all (fun s => isOkFate s.fate) = true) :
    download_and_concatenate_shards shards false initOut =
      { retVal := true
        tempFiles := []
        tempDirExists := false
        outputFile := some ((shards.map shardContent).flatten)
        total := (shards.map (fun s => (shardContent s).length)).sum } :=
  reassemble_success_run shards initOut h

/-- Claim C1 witness: a concrete two-shard success run. -/
theorem wiki_C1_witness :
    download_and_concatenate_shards
        [⟨"part-1.json.bz2", ShardFate.ok [1, 2]⟩, ⟨"part-2.json.bz2", ShardFate.ok [3]⟩]
        false none
      = ⟨true, [], false, some [1, 2, 3], 3⟩ :=
  (wiki_C1_success_concatenation
    [⟨"part-1.json.bz2", ShardFate.ok [1, 2]⟩, ⟨"part-2.json.bz2", ShardFate.ok [3]⟩]
    none (by decide)).trans (by decide)

/-- Claim C3: on any download or streaming failure, the run returns
`False` to its caller, every temporary shard file has been removed, the
temporary directory removal reflects exactly whether `rmdir` succeeded
(its failure is swallowed, never escalated into a different outcome),
and the output file is never deleted: it is either untouched (failure
before the compressor opened) or holds the partially written stream. -/
theorem wiki_C3_failure_cleanup (shards : List Shard) (rmdirFails : Bool)
    (initOut : Option (List Nat))
    (h : shards.all (fun s => isOkFate s.fate) = false) :
    (download_and_concatenate_shards shards rmdirFails initOut).retVal = false ∧
    (download_and_concatenate_shards shards rmdirFails initOut).tempFiles = [] ∧
    (download_and_concatenate_shards shards rmdirFails initOut).tempDirExists
      = rmdirFails ∧
    ((download_and_concatenate_shards shards rmdirFails initOut).outputFile = initOut ∨
      (download_and_concatenate_shards shards rmdirFails initOut).outputFile
        = some (streamLoop shards [] 0).written) ∧
    (initOut.isSome = true →
      (download_and_concatenate_shards shards rmdirFails initOut).outputFile.isSome
        = true) := by
  cases hd : downloadLoop shards with
  | error pre =>
    have hrw : download_and_concatenate_shards shards rmdirFails initOut
        = { retVal := false
            tempFiles := unlinkAll pre pre
            tempDirExists := rmdirFails
            outputFile := initOut
            total := 0 } := by
      simp only [download_and_concatenate_shards, hd]
    rw [hrw]
    exact ⟨rfl, unlinkAll_self pre, rfl, .inl rfl, fun hi => hi⟩
  | ok names =>
    have hso : (streamLoop shards [] 0).streamOk = false := by
      rw [streamOk_eq_all]; exact h
    have hrw : download_and_concatenate_shards shards rmdirFails initOut
        = { retVal := false
            tempFiles := unlinkAll names names
            tempDirExists := rmdirFails
            outputFile := some (streamLoop shards [] 0).written
            total := (streamLoop shards [] 0).total } := by
      simp only [download_and_concatenate_shards, hd, hso]
      simp
    rw [hrw]
    exact ⟨rfl, unlinkAll_self names, rfl, .inr rfl, fun _ => rfl⟩

/-- Claim C3 witness: shard 2 of 2 fails to download while the output
file of a previous run exists; afterwards the temp files are gone, the
directory removal failure is swallowed, and the output file survives. -/
theorem wiki_C3_witness :
    (download_and_concatenate_shards
        [⟨"part-1.json.bz2", ShardFate.ok [1]⟩, ⟨"part-2.json.bz2", ShardFate.dlFail⟩]
        true (some [9])).retVal = false ∧
    (download_and_concatenate_shards
        [⟨"part-1.json.bz2", ShardFate.ok [1]⟩, ⟨"part-2.json.bz2", ShardFate.dlFail⟩]
        true (some [9])).tempFiles = [] ∧
    (download_and_concatenate_shards
        [⟨"part-1.json.bz2", ShardFate.ok [1]⟩, ⟨"part-2.json.bz2", ShardFate.dlFail⟩]
        true (some [9])).tempDirExists = true ∧
    (download_and_concatenate_shards
        [⟨"part-1.json.bz2", ShardFate.ok [1]⟩, ⟨"part-2.json.bz2", ShardFate.dlFail⟩]
        true (some [9])).outputFile.isSome = true := by
  have h := wiki_C3_failure_cleanup
    [⟨"part-1.json.bz2", ShardFate.ok [1]⟩, ⟨"part-2.json.bz2", ShardFate.dlFail⟩]
    true (some [9]) (by decide)
  exact ⟨h.1, h.2.1, h.2.2.1, h.2.2.2.2 rfl⟩

/-- Claim C4, counterexample: the value returned to the caller is the
boolean `True` for both a 1-byte and a 2-byte corpus, so the return
value cannot be the accumulated decompressed byte count; that count is
tracked in the local `total_size` (and printed), not returned. -/
theorem wiki_C4_counterexample :
    (download_and_concatenate_shards [⟨"part-1.json.bz2", ShardFate.ok [7]⟩]
        false none).retVal
      = (download_and_concatenate_shards [⟨"part-1.json.bz2", ShardFate.ok [7, 8]⟩]
          false none).retVal ∧
    (download_and_concatenate_shards [⟨"part-1.json.bz2", ShardFate.ok [7]⟩]
        false none).total = 1 ∧
    (download_and_concatenate_shards [⟨"part-1.json.bz2", ShardFate.ok [7, 8]⟩]
        false none).total = 2 := by
  have h1 := reassemble_success_run [⟨"part-1.json.bz2", ShardFate.ok [7]⟩] none (by decide)
  have h2 := reassemble_success_run [⟨"part-1.json.bz2", ShardFate.ok [7, 8]⟩] none (by decide)
  rw [h1, h2]
  exact ⟨rfl, by decide, by decide⟩

/-- Claim C4 (amended): on success the reassembler returns the boolean
`True` to its caller; the decompressed byte count across all shards is
accumulated in `total_size` (and reported in a message) but is not the
returned value. -/
theorem wiki_C4_returns_bool (shards : List Shard) (initOut : Option (List Nat))
    (h : shards.all (fun s => isOkFate s.fate) = true) :
    (download_and_concatenate_shards shards false initOut).retVal = true ∧
    (download_and_concatenate_shards shards false initOut).total
      = (shards.map (fun s => (shardContent s).length)).sum := by
  rw [reassemble_success_run shards initOut h]
  exact ⟨rfl, rfl⟩

/-- Claim C4 witness: a concrete 3-byte run returns `true`, with the
count 3 only in the `total` field. -/
theorem wiki_C4_witness :
    (download_and_concatenate_shards [⟨"part-1.json.bz2", ShardFate.ok [5, 6, 7]⟩]
        false none).retVal = true ∧
    (download_and_concatenate_shards [⟨"part-1.json.bz2", ShardFate.ok [5, 6, 7]⟩]
        false none).total = 3 := by
  have h := wiki_C4_returns_bool [⟨"part-1.json.bz2", ShardFate.ok [5, 6, 7]⟩]
    none (by decide)
  exact ⟨h.1, h.2.trans (by decide)⟩

/-- Claim C6: `find_latest_date` fails exactly when no directory name
matches the eight-digit pattern, and otherwise returns a matching,
listed name that is a lexicographic upper bound of every matching
name. -/
theorem wiki_C6_find_latest_date (directories : List String) :
    (find_latest_date directories = none ↔
      ∀ d ∈ directories, matchesDatePattern d = false) ∧
    (∀ m, find_latest_date directories = some m →
      m ∈ directories ∧ matchesDatePattern m = true ∧
      ∀ d ∈ directories, matchesDatePattern d = true → pyLe d m) := by
  constructor
  · constructor
    · intro h d hd
      by_contra hne
      have hdt : matchesDatePattern d = true := by
        cases hx : matchesDatePattern d
        · exact absurd hx hne
        · rfl
      have hmem : d ∈ directories.filter matchesDatePattern :=
        List.mem_filter.mpr ⟨hd, hdt⟩
      have hne2 : directories.filter matchesDatePattern ≠ [] :=
        List.ne_nil_of_mem hmem
      unfold find_latest_date at h
      rw [if_neg (by simpa [List.isEmpty_iff] using hne2)] at h
      have hperm := List.perm_insertionSort pyLe (directories.filter matchesDatePattern)
      have hsne : List.insertionSort pyLe (directories.filter matchesDatePattern) ≠ [] := by
        intro h0
        exact hne2 (List.Perm.eq_nil (h0 ▸ hperm.symm))
      have := List.getLast?_isSome.mpr hsne
      rw [h] at this
      simp at this
    · intro h
      have hfil : directories.filter matchesDatePattern = [] := by
        rw [List.eq_nil_iff_forall_not_mem]
        intro d hd
        have hm := List.mem_filter.mp hd
        rw [h d hm.1] at hm
        exact absurd hm.2 (by simp)
      unfold find_latest_date
      rw [if_pos (by simp [hfil])]
  · intro m hm
    unfold find_latest_date at hm
    by_cases hem : (directories.filter matchesDatePattern).isEmpty
    · rw [if_pos hem] at hm
      exact absurd hm (by simp)
    · rw [if_neg hem] at hm
      have hperm := List.perm_insertionSort pyLe (directories.filter matchesDatePattern)
      have hmemS : m ∈ List.insertionSort pyLe (directories.filter matchesDatePattern) :=
        mem_of_getLast?_eq hm
      have hmemF : m ∈ directories.filter matchesDatePattern := hperm.mem_iff.mp hmemS
      have hmf := List.mem_filter.mp hmemF
      refine ⟨hmf.1, hmf.2, ?_⟩
      intro d hd hdt
      have hdmem : d ∈ List.insertionSort pyLe (directories.filter matchesDatePattern) :=
        hperm.mem_iff.mpr (List.mem_filter.mpr ⟨hd, hdt⟩)
      have hsorted := List.sorted_insertionSort pyLe (directories.filter matchesDatePattern)
      rcases sorted_getLast?_ub hsorted hm d hdmem with rfl | hle
      · exact lexLe_refl d.data
      · exact hle

/-- Claim C6 witness: among mixed names only the two valid dates are
considered and the later one is returned, dominating the earlier. -/
theorem wiki_C6_witness :
    ("20240101" : String)
        ∈ ["20221201", "20240101", "202050101", "2020511", "readme"] ∧
    matchesDatePattern "20240101" = true ∧
    pyLe "20221201" "20240101" := by
  have h := (wiki_C6_find_latest_date
    ["20221201", "20240101", "202050101", "2020511", "readme"]).2 "20240101" (by decide)
  exact ⟨h.1, h.2.1, h.2.2 "20221201" (by decide) (by decide)⟩

/-- Claim C7, counterexample: the href target `/` is non-empty and is
not a current/parent-directory marker, yet the parser places it in
neither collection (it ends in the separator, and stripping trailing
separators leaves an empty name, which the code discards). -/
theorem wiki_C7_counterexample :
    ("/" : String) ≠ "" ∧ ("/" : String) ≠ "../" ∧ ("/" : String) ≠ "./" ∧
    (feedTags [("a", [("href", some "/")])]).files = [] ∧
    (feedTags [("a", [("href", some "/")])]).directories = [] := by
  decide

/-- Claim C7 (amended): over any sequence of well-formed anchors, each
href target that is non-empty, not a marker, and does not consist
solely of separator characters is placed into exactly one of the two
collections — into `files` when it does not end in the separator, and
stripped of all trailing separators into `directories` otherwise;
targets made only of separators are discarded, and stored directory
names never retain a trailing separator. -/
theorem wiki_C7_parser_partition (targets : List String) :
    (feedTags (targets.map (fun v => ("a", [("href", some v)])))).files
        = specPartitionFiles targets ∧
    (feedTags (targets.map (fun v => ("a", [("href", some v)])))).directories
        = specPartitionDirs targets ∧
    (∀ v, ¬(keptFileTarget v = true ∧ keptDirTarget v = true)) ∧
    (∀ v, v ≠ "" → v ≠ "../" → v ≠ "./" → rstripSlashes v ≠ "" →
      keptFileTarget v = true ∨ keptDirTarget v = true) ∧
    (∀ d ∈ (feedTags (targets.map (fun v => ("a", [("href", some v)])))).directories,
      strEndsWith d "/" = false) := by
  have hfold : feedTags (targets.map (fun v => ("a", [("href", some v)])))
      = targets.foldl (fun q v => handle_starttag q "a" [("href", some v)]) ⟨[], []⟩ := by
    unfold feedTags
    rw [List.foldl_map]
  have hp := feedTargets_partition targets ⟨[], []⟩
  refine ⟨?_, ?_, kept_exclusive, ?_, ?_⟩
  · rw [hfold]
    simpa using hp.1
  · rw [hfold]
    simpa using hp.2
  · intro v h1 h2 h3 h4
    by_cases he : strEndsWith v "/"
    · right
      simp [keptDirTarget, h1, h2, h3, he, h4]
    · left
      simp [keptFileTarget, h1, h2, h3, he]
  · intro d hd
    rw [hfold] at hd
    have : (targets.foldl (fun q v => handle_starttag q "a" [("href", some v)])
        ⟨[], []⟩).directories = specPartitionDirs targets := by simpa using hp.2
    rw [this] at hd
    simp only [specPartitionDirs] at hd
    obtain ⟨v, _, rfl⟩ := List.mem_map.mp hd
    exact rstripSlashes_no_trailing v

/-- Claim C7 witness: a directory link and a file link are partitioned,
and the stored directory name keeps no trailing separator. -/
theorem wiki_C7_witness :
    (feedTags (["sub/", "file.txt"].map (fun v => ("a", [("href", some v)])))).files
        = ["file.txt"] ∧
    (feedTags (["sub/", "file.txt"].map (fun v => ("a", [("href", some v)])))).directories
        = ["sub"] ∧
    strEndsWith "sub" "/" = false := by
  have h := wiki_C7_parser_partition ["sub/", "file.txt"]
  refine ⟨h.1.trans (by decide), h.2.1.trans (by decide), ?_⟩
  refine h.2.2.2.2 "sub" ?_
  rw [h.2.1]
  decide

/-- Claim C8: for every language code the shard subdirectory and the
output filename follow the single general template; the `simple` branch
of the code produces exactly the same strings the template produces,
so there is no behavioural special case. -/
theorem wiki_C8_naming (lang date : String) :
    subdirName lang = "index_name=" ++ lang ++ "wiki_content" ∧
    outputFilename lang date
      = lang ++ "wiki-" ++ date ++ "-cirrussearch-content.json.gz" := by
  constructor
  · by_cases h : lang = "simple"
    · subst h
      show ("index_name=simplewiki_content" : String)
          = "index_name=" ++ "simple" ++ "wiki_content"
      decide
    · simp [subdirName, h]
  · by_cases h : lang = "simple"
    · subst h
      have h1 : outputFilename "simple" date
          = "simplewiki-" ++ date ++ "-cirrussearch-content.json.gz" := by
        simp [outputFilename]
      rw [h1]
      have h2 : ("simple" : String) ++ "wiki-" = "simplewiki-" := by decide
      rw [← h2]
    · simp [outputFilename, h]

/-- Claim C10: when no file in the directory matches the dump glob,
cleanup returns success immediately, never consults the confirmation
setting or the prompt, and deletes nothing. -/
theorem wiki_C10_no_matches (files : List String) (confirm : Bool)
    (userAnswer : String) (h : files.filter matchesDumpPattern = []) :
    cleanup_old_dumps files confirm userAnswer = ⟨true, [], false⟩ := by
  unfold cleanup_old_dumps
  rw [if_pos (by simp [h])]

/-- Claim C10 witness: a directory with no matching file. -/
theorem wiki_C10_witness :
    cleanup_old_dumps ["notes.txt", "enwiki.json"] true "no" = ⟨true, [], false⟩ :=
  wiki_C10_no_matches ["notes.txt", "enwiki.json"] true "no" (by decide)

/-- Claim C2: the locator keeps exactly the listed files ending in
`.json.bz2`, sorted ascending by plain code-point-lexicographic string
comparison (so `part-1`, `part-10`, `part-2` — not numeric order); a
successful unencoded listing returns exactly that sorted sequence as
URLs, and the streaming loop concatenates shard contents in list
order, so the sorted sequence is the concatenation order. -/
theorem wiki_C2_locator_sort :
    (∀ files : List String,
      (∀ f, f ∈ filterSortShards files ↔
          f ∈ files ∧ strEndsWith f ".json.bz2" = true) ∧
      (filterSortShards files).Sorted pyLe ∧
      (filterSortShards files).Perm
        (files.filter (fun f => strEndsWith f ".json.bz2"))) ∧
    filterSortShards ["part-2.json.bz2", "part-1.json.bz2", "part-10.json.bz2"]
      = ["part-1.json.bz2", "part-10.json.bz2", "part-2.json.bz2"] ∧
    (∀ a b : String, pyLe a b ↔ a.data = b.data ∨ List.Lex (· < ·) a.data b.data) ∧
    (∀ (fetch : String → FetchResult) (base_url lang : String)
        (files dirs raw : List String),
      fetch (base_url ++ subdirName lang ++ "/") = FetchResult.ok files dirs raw →
      filterSortShards files ≠ [] →
      (discover_shard_files fetch base_url lang).1
        = .ok ((filterSortShards files).map
            (fun f => base_url ++ subdirName lang ++ "/" ++ f))) ∧
    (∀ shards : List Shard, shards.all (fun s => isOkFate s.fate) = true →
      (streamLoop shards [] 0).written = (shards.map shardContent).flatten) := by
  refine ⟨?_, by decide, ?_, ?_, ?_⟩
  · intro files
    refine ⟨?_, List.sorted_insertionSort pyLe _, List.perm_insertionSort pyLe _⟩
    intro f
    rw [show filterSortShards files
        = List.insertionSort pyLe (files.filter (fun f => strEndsWith f ".json.bz2"))
        from rfl]
    rw [(List.perm_insertionSort pyLe _).mem_iff, List.mem_filter]
  · intro a b
    exact lexLe_iff_lex a.data b.data
  · intro fetch base_url lang files dirs raw hf hne
    simp only [discover_shard_files]
    rw [hf]
    simp [List.isEmpty_iff, hne]
  · intro shards h
    rw [streamLoop_eq_of_all shards [] 0 h]
    simp

/-- Claim C2 witness: the frozen tie-break example flows through
discovery into URLs in that exact order, and two shards stream in list
order. -/
theorem wiki_C2_witness :
    (discover_shard_files
        (fun _ => FetchResult.ok
          ["part-2.json.bz2", "part-1.json.bz2", "part-10.json.bz2"] [] [])
        "http://a/" "en").1
      = .ok ["http://a/index_name=enwiki_content/part-1.json.bz2",
             "http://a/index_name=enwiki_content/part-10.json.bz2",
             "http://a/index_name=enwiki_content/part-2.json.bz2"] ∧
    (streamLoop [⟨"s1", ShardFate.ok [4]⟩, ⟨"s2", ShardFate.ok [5]⟩] [] 0).written
      = [4, 5] := by
  constructor
  · have h4 := wiki_C2_locator_sort.2.2.2.1
      (fun _ => FetchResult.ok
        ["part-2.json.bz2", "part-1.json.bz2", "part-10.json.bz2"] [] [])
      "http://a/" "en"
      ["part-2.json.bz2", "part-1.json.bz2", "part-10.json.bz2"] [] []
      rfl (by decide)
    exact h4.trans (by rfl)
  · have h5 := wiki_C2_locator_sort.2.2.2.2
      [⟨"s1", ShardFate.ok [4]⟩, ⟨"s2", ShardFate.ok [5]⟩] (by decide)
    exact h5.trans (by decide)

/-- Claim C5: when the unencoded directory request yields HTTP 404, the
locator retries exactly once with the subdirectory percent-encoded
(`=` becomes `%3D`, the path separator stays safe — for `en` the
retried path component is `index_name%3Denwiki_content`); a successful
retry returns shard URLs built from the encoded path; and a non-404
HTTP failure raises at once, after a single request — neither the
encoded retry nor the sibling-index recovery listing is attempted. -/
theorem wiki_C5_encoding_fallback (fetch : String → FetchResult)
    (base_url lang : String) :
    (fetch (base_url ++ subdirName lang ++ "/") = FetchResult.httpError 404 →
      (discover_shard_files fetch base_url lang).2.take 2
        = [base_url ++ subdirName lang ++ "/",
           base_url ++ pyQuote ['/'] (subdirName lang) ++ "/"]) ∧
    (∀ files dirs raw,
      fetch (base_url ++ subdirName lang ++ "/") = FetchResult.httpError 404 →
      fetch (base_url ++ pyQuote ['/'] (subdirName lang) ++ "/")
        = FetchResult.ok files dirs raw →
      filterSortShards files ≠ [] →
      discover_shard_files fetch base_url lang
        = (.ok ((filterSortShards files).map
            (fun f => base_url ++ pyQuote ['/'] (subdirName lang) ++ "/" ++ f)),
          [base_url ++ subdirName lang ++ "/",
           base_url ++ pyQuote ['/'] (subdirName lang) ++ "/"])) ∧
    (∀ code, fetch (base_url ++ subdirName lang ++ "/") = FetchResult.httpError code →
      code ≠ 404 →
      discover_shard_files fetch base_url lang
        = (.error (.httpOther code), [base_url ++ subdirName lang ++ "/"])) ∧
    pyQuote ['/'] (subdirName "en") = "index_name%3Denwiki_content" := by
  refine ⟨?_, ?_, ?_, by decide⟩
  · intro h404
    simp only [discover_shard_files, h404]
    cases hr : fetch (base_url ++ pyQuote ['/'] (subdirName lang) ++ "/") with
    | ok files dirs raw =>
      by_cases hne : (filterSortShards files).isEmpty = true
      · simp [hr, hne]
      · simp [hr, hne]
    | httpError code => simp [hr]
    | failed => simp [hr]
  · intro files dirs raw h404 henc hne
    simp only [discover_shard_files, h404, henc]
    simp [List.isEmpty_iff, hne]
  · intro code hcode hneq
    simp only [discover_shard_files, hcode]
    simp [hneq]

/-- Claim C5 witness: a server that 404s the unencoded path and lists
one shard under the encoded path, and a server that answers 500. -/
theorem wiki_C5_witness :
    discover_shard_files
        (fun u =>
          if u = "http://a/index_name%3Denwiki_content/" then
            FetchResult.ok ["part-0.json.bz2"] [] []
          else FetchResult.httpError 404)
        "http://a/" "en"
      = (.ok ["http://a/index_name%3Denwiki_content/part-0.json.bz2"],
         ["http://a/index_name=enwiki_content/",
          "http://a/index_name%3Denwiki_content/"]) ∧
    discover_shard_files (fun _ => FetchResult.httpError 500) "http://a/" "en"
      = (.error (.httpOther 500), ["http://a/index_name=enwiki_content/"]) := by
  constructor
  · have h := (wiki_C5_encoding_fallback
      (fun u =>
        if u = "http://a/index_name%3Denwiki_content/" then
          FetchResult.ok ["part-0.json.bz2"] [] []
        else FetchResult.httpError 404)
      "http://a/" "en").2.1 ["part-0.json.bz2"] [] []
      (by decide) (by decide) (by decide)
    exact h.trans (by rfl)
  · have h := (wiki_C5_encoding_fallback (fun _ => FetchResult.httpError 500)
      "http://a/" "en").2.2.1 500 rfl (by decide)
    exact h.trans (by rfl)

/-- Claim C9: cleanup deletes only names matching the dump glob; when a
match exists nothing is deleted without either the skip-confirmation
flag (`confirm = false`) or an affirmative answer; and with the flag
unset a declined confirmation makes `main` exit with status 1. -/
theorem wiki_C9_cleanup_guard (files : List String) (confirm : Bool)
    (userAnswer : String) :
    (∀ f ∈ (cleanup_old_dumps files confirm userAnswer).deleted,
        matchesDumpPattern f = true ∧ f ∈ files) ∧
    (files.filter matchesDumpPattern ≠ [] →
      (cleanup_old_dumps files confirm userAnswer).deleted ≠ [] →
        confirm = false ∨ isYesAnswer userAnswer = true) ∧
    (confirm = true → isYesAnswer userAnswer = false →
      (cleanup_old_dumps files confirm userAnswer).deleted = []) ∧
    (files.filter matchesDumpPattern ≠ [] → isYesAnswer userAnswer = false →
      mainCleanupExit true false files userAnswer = some 1) := by
  refine ⟨?_, ?_, ?_, ?_⟩
  · intro f hf
    have hsub : (cleanup_old_dumps files confirm userAnswer).deleted = []
        ∨ (cleanup_old_dumps files confirm userAnswer).deleted
          = files.filter matchesDumpPattern := by
      rcases hq : (files.filter matchesDumpPattern).isEmpty <;>
        rcases hc : confirm <;> rcases hy : isYesAnswer userAnswer <;>
          simp [cleanup_old_dumps, hq, hy]
    rcases hsub with h0 | h0
    · rw [h0] at hf
      simp at hf
    · rw [h0] at hf
      have hm := List.mem_filter.mp hf
      exact ⟨hm.2, hm.1⟩
  · intro hne hdel
    rcases hc : confirm
    · exact .inl rfl
    · rcases hy : isYesAnswer userAnswer
      · exfalso
        apply hdel
        have hq : (files.filter matchesDumpPattern).isEmpty = false := by
          rcases hq0 : (files.filter matchesDumpPattern).isEmpty
          · rfl
          · exact absurd (List.isEmpty_iff.mp hq0) hne
        simp [cleanup_old_dumps, hq, hc, hy]
      · exact .inr rfl
  · intro hc hy
    subst hc
    rcases hq : (files.filter matchesDumpPattern).isEmpty <;>
      simp [cleanup_old_dumps, hq, hy]
  · intro hne hy
    have hq : (files.filter matchesDumpPattern).isEmpty = false := by
      rcases hq0 : (files.filter matchesDumpPattern).isEmpty
      · rfl
      · exact absurd (List.isEmpty_iff.mp hq0) hne
    simp [mainCleanupExit, cleanup_old_dumps, hq, hy]

/-- Claim C9 witness: one matching file, confirmation requested, answer
`no` — nothing is deleted and the process exits with status 1. -/
theorem wiki_C9_witness :
    mainCleanupExit true false
        ["enwiki-20240101-cirrussearch-content.json.gz", "notes.txt"] "no"
      = some 1 ∧
    (cleanup_old_dumps
        ["enwiki-20240101-cirrussearch-content.json.gz", "notes.txt"]
        true "no").deleted = [] := by
  have h := wiki_C9_cleanup_guard
    ["enwiki-20240101-cirrussearch-content.json.gz", "notes.txt"] true "no"
  exact ⟨h.2.2.2 (by decide) (by decide), h.2.2.1 rfl (by decide)⟩
